import Mathlib

/-!
# Hologram-Effect: `script.js`

A shallow embedding of the page script: the module-level variables become the
fields of `State`, every callback the script registers (file input, colour
picker, density slider, animation frame, window resize) becomes a function on
`State`, and the browser is the environment that chooses which callback runs
next and with which data.

JavaScript numbers are IEEE-754 binary64 values.  A finite one is represented
by the rational it denotes, and every arithmetic operation rounds its exact
result to the nearest binary64 value, ties to even (`fl64`).  Elements of a
`Float32Array` are rounded to binary32 (`fl32`).
-/

namespace Hologram

/-! ## Numbers -/

/-- Nearest integer to `x`; a tie goes to the even neighbour. -/
def roundHalfEven (x : ℚ) : ℤ :=
  if x - ⌊x⌋ < 1 / 2 then ⌊x⌋
  else if 1 / 2 < x - ⌊x⌋ then ⌊x⌋ + 1
  else if ⌊x⌋ % 2 = 0 then ⌊x⌋ else ⌊x⌋ + 1

/-- The loop `while (2 <= n) { n = n / 2; e++ }` with `fuel` iterations allowed. -/
def log2Fuel : ℕ → ℕ → ℕ
  | 0, _ => 0
  | fuel + 1, n => if 2 ≤ n then log2Fuel fuel (n / 2) + 1 else 0

/-- Position of the leading bit of `n`: the `e` with `2 ^ e ≤ n < 2 ^ (e + 1)`
for `n > 0`. -/
def ilog2 (n : ℕ) : ℕ := log2Fuel n n

/-- Binary exponent of a positive rational `x`: the `e` with
`2 ^ e ≤ x < 2 ^ (e + 1)`, found from the leading bits of numerator and
denominator. -/
def binade (x : ℚ) : ℤ :=
  if (2 : ℚ) ^ ((ilog2 x.num.natAbs : ℤ) - (ilog2 x.den : ℤ)) ≤ x
  then (ilog2 x.num.natAbs : ℤ) - (ilog2 x.den : ℤ)
  else (ilog2 x.num.natAbs : ℤ) - (ilog2 x.den : ℤ) - 1

/-- Spacing of the values of a binary format with `p` significand bits around
the positive rational `x`; exponents below `emin` are not used. -/
def quantum (p : ℕ) (emin : ℤ) (x : ℚ) : ℚ :=
  (2 : ℚ) ^ (max (binade x) emin - ((p : ℤ) - 1))

/-- Rounding of a positive rational to a binary format with `p` significand
bits and least normal exponent `emin` (below `2 ^ emin` the spacing stays that
of the lowest binade: subnormals).  Results are finite: the format's overflow
threshold is not modelled, every value the script computes with this function
stays far below it. -/
def roundPos (p : ℕ) (emin : ℤ) (x : ℚ) : ℚ :=
  (roundHalfEven (x / quantum p emin x) : ℚ) * quantum p emin x

/-- Round to nearest, ties to even, symmetric in the sign. -/
def roundTo (p : ℕ) (emin : ℤ) (x : ℚ) : ℚ :=
  if x = 0 then 0
  else if x < 0 then -(roundPos p emin (-x))
  else roundPos p emin x

/-- Rounding to binary64, the format of every JavaScript number. -/
def fl64 (x : ℚ) : ℚ := roundTo 53 (-1022) x

/-- Rounding to binary32, applied when a number is stored in a `Float32Array`. -/
def fl32 (x : ℚ) : ℚ := roundTo 24 (-126) x

/-- The value of a decimal literal of the source text. -/
def lit (x : ℚ) : ℚ := fl64 x

/-- JavaScript `a + b` on finite numbers. -/
def jsAdd (a b : ℚ) : ℚ := fl64 (a + b)

/-- JavaScript `a - b` on finite numbers. -/
def jsSub (a b : ℚ) : ℚ := fl64 (a - b)

/-- JavaScript `a * b` on finite numbers. -/
def jsMul (a b : ℚ) : ℚ := fl64 (a * b)

/-- JavaScript `a / b` on finite numbers, `b` not zero. -/
def jsDiv (a b : ℚ) : ℚ := fl64 (a / b)

/-- A JavaScript number that may fail to be finite. -/
inductive JSNum where
  | nan
  | posInf
  | num (q : ℚ)
  deriving DecidableEq

/-- The quotient `w / h` of two window dimensions (non-negative integers) as
JavaScript computes it: `0 / 0` is `NaN`, `w / 0` is `Infinity` for `w > 0`. -/
def jsDivNat (w h : ℕ) : JSNum :=
  if h = 0 then (if w = 0 then JSNum.nan else JSNum.posInf)
  else JSNum.num (jsDiv (w : ℚ) (h : ℚ))

/-! ## Program state -/

/-- An RGB colour, as delivered by the colour picker (`#rrggbb`). -/
structure Color where
  r : ℕ
  g : ℕ
  b : ℕ
  deriving DecidableEq

/-- The colour `0x00ffff` of lines 39 and 81. -/
def cyan : Color := ⟨0, 255, 255⟩

/-- The `fftSize` assigned to every analyser (line 26). -/
def fftSize : ℕ := 256

/-- Web Audio: `frequencyBinCount` is half the `fftSize`. -/
def frequencyBinCount : ℕ := fftSize / 2

/-- The contents of a `Uint8Array` of `frequencyBinCount` elements. -/
abbrev FrequencyData := Fin frequencyBinCount → Fin 256

/-- One chain `source → analyser → audioContext.destination` built by the
decode callback (lines 21-28).  `node` identifies the two nodes created
together, `buffer` is the decoded audio, `connected` records
`analyser.connect(audioContext.destination)` and `started` records
`source.start()`. -/
structure Chain where
  node : ℕ
  buffer : ℕ
  connected : Bool
  started : Bool
  deriving DecidableEq

/-- The variables `analyser` and `audioData` of line 12.  They are assigned
together in the decode callback and nowhere else. -/
structure Tap where
  analyser : ℕ
  audioData : FrequencyData

/-- An exception thrown by a callback. -/
inductive JSError where
  | rangeError
  deriving DecidableEq

/-- The mutable state the script owns. -/
structure State where
  /-- Field `camera.aspect`. -/
  aspect : JSNum
  /-- The size last given to `renderer.setSize`. -/
  size : ℕ × ℕ
  /-- Every chain the script has connected to the audio destination. -/
  graph : List Chain
  /-- The pair `analyser`, `audioData`; `none` while both are `undefined`. -/
  tap : Option Tap
  /-- Uniform `time`. -/
  time : ℚ
  /-- Uniform `color`. -/
  color : Color
  /-- Uniform `audioStrength`. -/
  audioStrength : ℚ
  /-- Variable `particleCount`; `none` is `NaN`. -/
  particleCount : Option ℤ
  /-- The array behind the `position` attribute of `particlesGeometry`. -/
  positions : List ℚ
  /-- Field `particleMaterial.color`. -/
  particleColor : Color
  /-- Field `hologram.rotation.y`. -/
  hologramRotY : ℚ
  /-- Field `particles.rotation.y`. -/
  particlesRotY : ℚ
  /-- Whether an animation frame is requested and not yet delivered. -/
  frameRequested : Bool
  /-- Number of `renderer.render` calls so far. -/
  rendered : ℕ

/-- A callback's result: the state it leaves and the exception it threw, if
any.  Assignments made before the throw stay in the state. -/
structure Outcome where
  state : State
  thrown : Option JSError

/-! ## Particle buffer -/

/-- One coordinate, `(Math.random() - 0.5) * 15` stored into a `Float32Array`;
`u` is the value `Math.random()` returned. -/
def coordinate (u : ℚ) : ℚ := fl32 (jsMul (jsSub u (lit (1 / 2))) (lit 15))

/-- The loop `for (let i = 0; i < k; i++) arr[i] = (Math.random() - 0.5) * 15`
of lines 75-77 and 100-102, entered at index `i` with `fuel` iterations
allowed (`k` of them complete it, see `fillLoop_getElem?`); `rand j` is the
value of the `j`-th call of `Math.random` made by the loop. -/
def fillLoop (rand : ℕ → ℚ) (k : ℕ) : ℕ → ℕ → List ℚ → List ℚ
  | 0, _, arr => arr
  | fuel + 1, i, arr =>
    if i < k then fillLoop rand k fuel (i + 1) (arr.set i (coordinate (rand i)))
    else arr

/-- Largest length `new Float32Array(length)` accepts on a host whose own
limit is `hostLimit`: ECMAScript refuses every length above `2 ^ 53 - 1`. -/
def typedArrayLimit (hostLimit : ℕ) : ℕ := min hostLimit (2 ^ 53 - 1)

/-- Constructor `new Float32Array(k)`: `NaN` (`none`) is length 0, a negative
or too large length throws a `RangeError`, otherwise the array is zero-filled.
Integers up to `2 ^ 53` are exact JavaScript numbers, and a product beyond
that bound rounds to a value above the limit, so `k` is the exact integer. -/
def newFloat32Array (hostLimit : ℕ) : Option ℤ → Except JSError (List ℚ)
  | none => Except.ok []
  | some k =>
    if k < 0 then Except.error JSError.rangeError
    else if (typedArrayLimit hostLimit : ℤ) < k then Except.error JSError.rangeError
    else Except.ok (List.replicate k.toNat 0)

/-- JavaScript `particleCount * 3`; `NaN * 3` is `NaN`. -/
def timesThree (c : Option ℤ) : Option ℤ := c.map (fun n => n * 3)

/-- How many indices `i = 0, 1, 2, ...` pass the loop test `i < k`; a
comparison with `NaN` is false. -/
def loopBound : Option ℤ → ℕ
  | none => 0
  | some k => k.toNat

/-- Lines 72-78: the particle positions built at load time with
`particleCount = 2000`; a host that runs the script allocates these 6000
elements. -/
def initialPositions (rand : ℕ → ℚ) : List ℚ :=
  fillLoop rand (2000 * 3) (2000 * 3) 0 (List.replicate (2000 * 3) 0)

/-! ## Callbacks -/

/-- Function `Math.max(...audioData)`: the largest element of the array, which
has `frequencyBinCount = 128` elements, all of them bytes. -/
def mathMax (d : FrequencyData) : ℕ :=
  (List.ofFn (fun i => (d i).val)).foldl max 0

/-- Function `animate` (lines 107-127).  `freq a` is what
`getByteFrequencyData` of the analyser node `a` delivers at this moment. -/
def animate (s : State) (freq : ℕ → FrequencyData) : State :=
  { s with
    frameRequested := true
    time := jsAdd s.time (lit (1 / 100))
    tap := s.tap.map (fun t => { t with audioData := freq t.analyser })
    audioStrength :=
      match s.tap with
      | some t => jsDiv (mathMax (freq t.analyser) : ℚ) 255
      | none => s.audioStrength
    hologramRotY := jsAdd s.hologramRotY (lit (1 / 100))
    particlesRotY := jsAdd s.particlesRotY (lit (2 / 1000))
    rendered := s.rendered + 1 }

/-- The success callback of `decodeAudioData` (lines 20-29): a new source and
a new analyser are created, connected to the destination and started; the
variables `analyser` and `audioData` are overwritten.  Nothing is stopped or
disconnected. -/
def onDecoded (s : State) (buffer : ℕ) : State :=
  { s with
    graph := s.graph ++ [{ node := s.graph.length, buffer := buffer,
                           connected := true, started := true }]
    tap := some { analyser := s.graph.length, audioData := fun _ => 0 } }

/-- The colour picker's `input` listener (lines 91-94). -/
def onColorInput (s : State) (c : Color) : State :=
  { s with color := c, particleColor := c }

/-- The density slider's `input` listener (lines 97-104); `v` is the result of
`parseInt(particleDensitySlider.value)`, an integer or `NaN` (`none`).  The
assignment to `particleCount` precedes the constructor call, so it survives
an exception thrown there. -/
def onDensityInput (hostLimit : ℕ) (s : State) (v : Option ℤ) (rand : ℕ → ℚ) : Outcome :=
  match newFloat32Array hostLimit (timesThree v) with
  | Except.error e => { state := { s with particleCount := v }, thrown := some e }
  | Except.ok newPositions =>
    { state := { s with
        particleCount := v
        positions := fillLoop rand (loopBound (timesThree v)) (loopBound (timesThree v)) 0
          newPositions }
      thrown := none }

/-- The window's `resize` listener (lines 131-135); `w` and `h` are
`window.innerWidth` and `window.innerHeight`. -/
def onResize (s : State) (w h : ℕ) : State :=
  { s with size := (w, h), aspect := jsDivNat w h }

/-- The state once the script has run to its last line: the scene is set up
for a window of `w` by `h` pixels, the particles are placed with the draws
`rand`, and `animate()` of line 128 has run once. -/
def init (w h : ℕ) (rand : ℕ → ℚ) : State :=
  animate
    { aspect := jsDivNat w h
      size := (w, h)
      graph := []
      tap := none
      time := 0
      color := cyan
      audioStrength := 0
      particleCount := some 2000
      positions := initialPositions rand
      particleColor := cyan
      hologramRotY := 0
      particlesRotY := 0
      frameRequested := false
      rendered := 0 }
    (fun _ _ => 0)

/-! ## The browser as environment -/

/-- What the browser can deliver to the page. -/
inductive Event where
  /-- The file input changed; reading and decoding are started by the host. -/
  | audioChange (hasFile : Bool)
  /-- Decoding succeeded: the success callback runs with the decoded buffer. -/
  | audioDecoded (buffer : ℕ)
  /-- Reading or decoding failed: no callback of the script runs. -/
  | audioFailed
  /-- The colour picker fired `input`. -/
  | colorInput (c : Color)
  /-- The density slider fired `input`. -/
  | densityInput (v : Option ℤ) (rand : ℕ → ℚ)
  /-- The window was resized. -/
  | resize (w h : ℕ)
  /-- An animation frame is due. -/
  | frame (freq : ℕ → FrequencyData)

/-- One event.  A frame is delivered only if one was requested. -/
def step (hostLimit : ℕ) (s : State) : Event → State
  | Event.audioChange _ => s
  | Event.audioDecoded buffer => onDecoded s buffer
  | Event.audioFailed => s
  | Event.colorInput c => onColorInput s c
  | Event.densityInput v rand => (onDensityInput hostLimit s v rand).state
  | Event.resize w h => onResize s w h
  | Event.frame freq => if s.frameRequested then animate s freq else s

/-- A sequence of events, in order. -/
def run (hostLimit : ℕ) (s : State) (es : List Event) : State :=
  es.foldl (step hostLimit) s

/-- Whether the event is a successful decode. -/
def Event.isDecoded : Event → Bool
  | Event.audioDecoded _ => true
  | _ => false

/-- Whether the event is an animation frame. -/
def Event.isFrame : Event → Bool
  | Event.frame _ => true
  | _ => false

theorem floor_le_roundHalfEven (x : ℚ) : ⌊x⌋ ≤ roundHalfEven x := by
  unfold roundHalfEven
  split_ifs <;> omega

theorem roundHalfEven_le_floor_succ (x : ℚ) : roundHalfEven x ≤ ⌊x⌋ + 1 := by
  unfold roundHalfEven
  split_ifs <;> omega

theorem roundHalfEven_intCast (z : ℤ) : roundHalfEven (z : ℚ) = z := by
  unfold roundHalfEven
  simp

theorem roundHalfEven_mono {x y : ℚ} (h : x ≤ y) : roundHalfEven x ≤ roundHalfEven y := by
  have hf : ⌊x⌋ ≤ ⌊y⌋ := Int.floor_mono h
  rcases hf.lt_or_eq with hlt | heq
  · calc roundHalfEven x ≤ ⌊x⌋ + 1 := roundHalfEven_le_floor_succ x
      _ ≤ ⌊y⌋ := hlt
      _ ≤ roundHalfEven y := floor_le_roundHalfEven y
  · unfold roundHalfEven
    rw [← heq]
    split_ifs <;> first | omega | (exfalso; linarith)

theorem roundHalfEven_le_of_le {x : ℚ} {c : ℤ} (h : x ≤ c) : roundHalfEven x ≤ c := by
  have := roundHalfEven_mono h
  rwa [roundHalfEven_intCast] at this

theorem le_roundHalfEven_of_le {x : ℚ} {c : ℤ} (h : (c : ℚ) ≤ x) : c ≤ roundHalfEven x := by
  have := roundHalfEven_mono h
  rwa [roundHalfEven_intCast] at this

theorem quot_bounds {N D : ℚ} {a b : ℕ} (hN1 : (2 : ℚ) ^ a ≤ N) (hN2 : N < (2 : ℚ) ^ (a + 1))
    (hD1 : (2 : ℚ) ^ b ≤ D) (hD2 : D < (2 : ℚ) ^ (b + 1)) :
    (2 : ℚ) ^ ((a : ℤ) - (b : ℤ) - 1) < N / D ∧ N / D < (2 : ℚ) ^ ((a : ℤ) - (b : ℤ) + 1) := by
  have h2 : (2 : ℚ) ≠ 0 := two_ne_zero
  have hpa : (0 : ℚ) < (2 : ℚ) ^ a := by positivity
  have hpb : (0 : ℚ) < (2 : ℚ) ^ b := by positivity
  have hD : 0 < D := lt_of_lt_of_le hpb hD1
  have hN : 0 < N := lt_of_lt_of_le hpa hN1
  constructor
  · rw [zpow_sub₀ h2, zpow_sub₀ h2, zpow_natCast, zpow_natCast, zpow_one, div_div,
      div_lt_div_iff₀ (by positivity) hD]
    calc (2 : ℚ) ^ a * D < (2 : ℚ) ^ a * (2 : ℚ) ^ (b + 1) := by
          exact mul_lt_mul_of_pos_left hD2 hpa
      _ = (2 : ℚ) ^ a * ((2 : ℚ) ^ b * 2) := by rw [pow_succ]
      _ ≤ N * ((2 : ℚ) ^ b * 2) := by
          exact mul_le_mul_of_nonneg_right hN1 (by positivity)
  · rw [zpow_add₀ h2, zpow_sub₀ h2, zpow_natCast, zpow_natCast, zpow_one, div_mul_eq_mul_div,
      div_lt_div_iff₀ hD hpb]
    calc N * (2 : ℚ) ^ b < (2 : ℚ) ^ (a + 1) * (2 : ℚ) ^ b := by
          exact mul_lt_mul_of_pos_right hN2 hpb
      _ = (2 : ℚ) ^ a * 2 * (2 : ℚ) ^ b := by rw [pow_succ]
      _ ≤ (2 : ℚ) ^ a * 2 * D := by
          exact mul_le_mul_of_nonneg_left hD1 (by positivity)

theorem log2Fuel_eq (fuel n : ℕ) (h : n ≤ fuel) : log2Fuel fuel n = Nat.log2 n := by
  induction fuel generalizing n with
  | zero =>
    have : n = 0 := by omega
    subst this
    rw [Nat.log2_zero]
    rfl
  | succ fuel ih =>
    unfold log2Fuel
    rw [Nat.log2]
    split_ifs with h2
    · rw [ih (n / 2) (by omega)]
    · rfl

theorem ilog2_eq (n : ℕ) : ilog2 n = Nat.log2 n := log2Fuel_eq n n le_rfl

theorem binade_spec {x : ℚ} (hx : 0 < x) :
    (2 : ℚ) ^ binade x ≤ x ∧ x < (2 : ℚ) ^ (binade x + 1) := by
  have hnum : 0 < x.num := Rat.num_pos.mpr hx
  have hn0 : x.num.natAbs ≠ 0 := by omega
  have hd0 : x.den ≠ 0 := x.den_nz
  have hxeq : (x.num.natAbs : ℚ) / (x.den : ℚ) = x := by
    have h1 : ((x.num.natAbs : ℤ) : ℚ) = (x.num : ℚ) := by
      rw [Int.natAbs_of_nonneg hnum.le]
    rw [← Int.cast_natCast x.num.natAbs, h1]
    exact Rat.num_div_den x
  have hn1 : (2 : ℚ) ^ (ilog2 x.num.natAbs) ≤ (x.num.natAbs : ℚ) := by
    rw [ilog2_eq]
    exact_mod_cast Nat.log2_self_le hn0
  have hn2 : (x.num.natAbs : ℚ) < (2 : ℚ) ^ (ilog2 x.num.natAbs + 1) := by
    rw [ilog2_eq]
    exact_mod_cast (Nat.lt_log2_self : x.num.natAbs < 2 ^ (x.num.natAbs.log2 + 1))
  have hd1 : (2 : ℚ) ^ (ilog2 x.den) ≤ (x.den : ℚ) := by
    rw [ilog2_eq]
    exact_mod_cast Nat.log2_self_le hd0
  have hd2 : (x.den : ℚ) < (2 : ℚ) ^ (ilog2 x.den + 1) := by
    rw [ilog2_eq]
    exact_mod_cast (Nat.lt_log2_self : x.den < 2 ^ (x.den.log2 + 1))
  have hb := quot_bounds hn1 hn2 hd1 hd2
  rw [hxeq] at hb
  unfold binade
  split_ifs with h
  · exact ⟨h, hb.2⟩
  · refine ⟨hb.1.le, ?_⟩
    rw [sub_add_cancel]
    exact not_le.mp h

theorem binade_eq_log {x : ℚ} (hx : 0 < x) : binade x = Int.log 2 x := by
  obtain ⟨h1, h2⟩ := binade_spec hx
  have h1' : ((2 : ℕ) : ℚ) ^ binade x ≤ x := by exact_mod_cast h1
  have h2' : x < ((2 : ℕ) : ℚ) ^ (binade x + 1) := by exact_mod_cast h2
  have a := (Int.zpow_le_iff_le_log (by norm_num : 1 < 2) hx).mp h1'
  have b := (Int.lt_zpow_iff_log_lt (by norm_num : 1 < 2) hx).mp h2'
  omega

theorem binade_mono {x y : ℚ} (hx : 0 < x) (h : x ≤ y) : binade x ≤ binade y := by
  rw [binade_eq_log hx, binade_eq_log (lt_of_lt_of_le hx h)]
  exact Int.log_mono_right hx h

theorem binade_lt_of_lt_zpow {x : ℚ} {t : ℤ} (hx : 0 < x) (h : x < (2 : ℚ) ^ t) : binade x < t := by
  rw [binade_eq_log hx]
  have h' : x < ((2 : ℕ) : ℚ) ^ t := by exact_mod_cast h
  exact (Int.lt_zpow_iff_log_lt (by norm_num : 1 < 2) hx).mp h'

theorem quantum_pos (p : ℕ) (emin : ℤ) (x : ℚ) : 0 < quantum p emin x := by
  unfold quantum
  positivity

theorem pow_mul_quantum (p : ℕ) (emin : ℤ) (x : ℚ) :
    (((2 : ℤ) ^ p : ℤ) : ℚ) * quantum p emin x = (2 : ℚ) ^ (max (binade x) emin + 1) := by
  unfold quantum
  rw [Int.cast_pow, Int.cast_ofNat, ← zpow_natCast, ← zpow_add₀ (two_ne_zero)]
  congr 1
  ring

theorem pow_pred_mul_quantum {p : ℕ} (hp : 1 ≤ p) (emin : ℤ) (x : ℚ) :
    (((2 : ℤ) ^ (p - 1) : ℤ) : ℚ) * quantum p emin x = (2 : ℚ) ^ (max (binade x) emin) := by
  unfold quantum
  rw [Int.cast_pow, Int.cast_ofNat, ← zpow_natCast, ← zpow_add₀ (two_ne_zero)]
  congr 1
  rw [Nat.cast_sub hp]
  push_cast
  ring

theorem roundPos_le_of_le {p : ℕ} {emin : ℤ} {x : ℚ} {c : ℤ}
    (h : x ≤ (c : ℚ) * quantum p emin x) : roundPos p emin x ≤ (c : ℚ) * quantum p emin x := by
  unfold roundPos
  have hq := quantum_pos p emin x
  have h1 : x / quantum p emin x ≤ (c : ℚ) := by rwa [div_le_iff₀ hq]
  have h2 : ((roundHalfEven (x / quantum p emin x) : ℤ) : ℚ) ≤ (c : ℚ) := by
    exact_mod_cast roundHalfEven_le_of_le h1
  exact mul_le_mul_of_nonneg_right h2 hq.le

theorem le_roundPos_of_le {p : ℕ} {emin : ℤ} {x : ℚ} {c : ℤ}
    (h : (c : ℚ) * quantum p emin x ≤ x) : (c : ℚ) * quantum p emin x ≤ roundPos p emin x := by
  unfold roundPos
  have hq := quantum_pos p emin x
  have h1 : (c : ℚ) ≤ x / quantum p emin x := by rwa [le_div_iff₀ hq]
  have h2 : (c : ℚ) ≤ ((roundHalfEven (x / quantum p emin x) : ℤ) : ℚ) := by
    exact_mod_cast le_roundHalfEven_of_le h1
  exact mul_le_mul_of_nonneg_right h2 hq.le

theorem roundPos_nonneg {p : ℕ} {emin : ℤ} {x : ℚ} (hx : 0 ≤ x) : 0 ≤ roundPos p emin x := by
  have h := @le_roundPos_of_le p emin x 0 (by simpa using hx)
  simpa using h

theorem lt_zpow_exponent_succ (emin : ℤ) {x : ℚ} (hx : 0 < x) :
    x < (2 : ℚ) ^ (max (binade x) emin + 1) := by
  refine lt_of_lt_of_le (binade_spec hx).2 ?_
  exact zpow_le_zpow_right₀ (by norm_num) (by have := le_max_left (binade x) emin; omega)

theorem roundPos_le_zpow (p : ℕ) (emin : ℤ) {x : ℚ} (hx : 0 < x) :
    roundPos p emin x ≤ (2 : ℚ) ^ (max (binade x) emin + 1) := by
  rw [← pow_mul_quantum p emin x]
  apply roundPos_le_of_le
  rw [pow_mul_quantum]
  exact (lt_zpow_exponent_succ emin hx).le

theorem zpow_le_roundPos {p : ℕ} (hp : 1 ≤ p) (emin : ℤ) {x : ℚ} (hx : 0 < x)
    (he : emin ≤ binade x) : (2 : ℚ) ^ binade x ≤ roundPos p emin x := by
  have hm : max (binade x) emin = binade x := max_eq_left he
  have h := pow_pred_mul_quantum hp emin x
  rw [hm] at h
  rw [← h]
  apply le_roundPos_of_le
  rw [h]
  exact (binade_spec hx).1

theorem roundPos_mono {p : ℕ} (hp : 1 ≤ p) (emin : ℤ) {x y : ℚ} (hx : 0 < x) (h : x ≤ y) :
    roundPos p emin x ≤ roundPos p emin y := by
  have hy : 0 < y := lt_of_lt_of_le hx h
  have hb : binade x ≤ binade y := binade_mono hx h
  have he : max (binade x) emin ≤ max (binade y) emin := max_le_max hb le_rfl
  rcases he.lt_or_eq with hlt | heq
  · have hey : emin ≤ binade y := by
      rcases le_total emin (binade y) with h1 | h1
      · exact h1
      · rw [max_eq_right h1] at hlt
        have := le_max_right (binade x) emin
        omega
    have hmy : max (binade y) emin = binade y := max_eq_left hey
    calc roundPos p emin x ≤ (2 : ℚ) ^ (max (binade x) emin + 1) := roundPos_le_zpow p emin hx
      _ ≤ (2 : ℚ) ^ binade y := zpow_le_zpow_right₀ (by norm_num) (by omega)
      _ ≤ roundPos p emin y := zpow_le_roundPos hp emin hy hey
  · have hq : quantum p emin x = quantum p emin y := by
      unfold quantum
      rw [heq]
    unfold roundPos
    rw [hq]
    have hqp := quantum_pos p emin y
    have h1 : x / quantum p emin y ≤ y / quantum p emin y := by
      exact div_le_div_of_nonneg_right h hqp.le
    have h2 : ((roundHalfEven (x / quantum p emin y) : ℤ) : ℚ)
        ≤ ((roundHalfEven (y / quantum p emin y) : ℤ) : ℚ) := by
      exact_mod_cast roundHalfEven_mono h1
    exact mul_le_mul_of_nonneg_right h2 hqp.le

theorem roundTo_zero (p : ℕ) (emin : ℤ) : roundTo p emin 0 = 0 := by
  simp [roundTo]

theorem roundTo_of_pos (p : ℕ) (emin : ℤ) {x : ℚ} (hx : 0 < x) :
    roundTo p emin x = roundPos p emin x := by
  simp [roundTo, hx.ne', not_lt.mpr hx.le]

theorem roundTo_of_neg (p : ℕ) (emin : ℤ) {x : ℚ} (hx : x < 0) :
    roundTo p emin x = -(roundPos p emin (-x)) := by
  simp [roundTo, hx.ne, hx]

theorem roundTo_nonneg (p : ℕ) (emin : ℤ) {x : ℚ} (hx : 0 ≤ x) : 0 ≤ roundTo p emin x := by
  rcases hx.lt_or_eq with h | h
  · rw [roundTo_of_pos p emin h]
    exact roundPos_nonneg hx
  · rw [← h, roundTo_zero]

theorem roundTo_nonpos (p : ℕ) (emin : ℤ) {x : ℚ} (hx : x ≤ 0) : roundTo p emin x ≤ 0 := by
  rcases hx.lt_or_eq with h | h
  · rw [roundTo_of_neg p emin h]
    have := @roundPos_nonneg p emin (-x) (by linarith)
    linarith
  · rw [h, roundTo_zero]

theorem roundTo_mono {p : ℕ} (hp : 1 ≤ p) (emin : ℤ) {x y : ℚ} (h : x ≤ y) :
    roundTo p emin x ≤ roundTo p emin y := by
  rcases le_or_lt x 0 with hx | hx
  · rcases le_or_lt 0 y with hy | hy
    · exact le_trans (roundTo_nonpos p emin hx) (roundTo_nonneg p emin hy)
    · have hx' : x < 0 := lt_of_le_of_lt h hy
      rw [roundTo_of_neg p emin hx', roundTo_of_neg p emin hy]
      have := roundPos_mono hp emin (x := -y) (y := -x) (by linarith) (by linarith)
      linarith
  · rw [roundTo_of_pos p emin hx, roundTo_of_pos p emin (lt_of_lt_of_le hx h)]
    exact roundPos_mono hp emin hx h

theorem roundPos_of_repr {p : ℕ} {emin : ℤ} {m k : ℤ} (hm0 : 0 < m) (hm : m < (2 : ℤ) ^ p)
    (hk : emin - ((p : ℤ) - 1) ≤ k) :
    roundPos p emin ((m : ℚ) * (2 : ℚ) ^ k) = (m : ℚ) * (2 : ℚ) ^ k := by
  have h2 : (2 : ℚ) ≠ 0 := two_ne_zero
  have hmq : (0 : ℚ) < (m : ℚ) := by exact_mod_cast hm0
  have hy : (0 : ℚ) < (m : ℚ) * (2 : ℚ) ^ k := by positivity
  have hlt : (m : ℚ) * (2 : ℚ) ^ k < (2 : ℚ) ^ ((p : ℤ) + k) := by
    rw [zpow_add₀ h2, zpow_natCast]
    have : (m : ℚ) < (2 : ℚ) ^ p := by exact_mod_cast hm
    exact mul_lt_mul_of_pos_right this (by positivity)
  have hb := binade_lt_of_lt_zpow hy hlt
  have hE : 0 ≤ k - (max (binade ((m : ℚ) * (2 : ℚ) ^ k)) emin - ((p : ℤ) - 1)) := by
    rcases max_cases (binade ((m : ℚ) * (2 : ℚ) ^ k)) emin with ⟨h, _⟩ | ⟨h, _⟩ <;> rw [h] <;> omega
  obtain ⟨n, hn⟩ := Int.eq_ofNat_of_zero_le hE
  have h2k : (2 : ℚ) ^ k = quantum p emin ((m : ℚ) * (2 : ℚ) ^ k) * (2 : ℚ) ^ n := by
    unfold quantum
    rw [← zpow_natCast, ← zpow_add₀ h2, ← hn]
    congr 1
    ring
  have hq := quantum_pos p emin ((m : ℚ) * (2 : ℚ) ^ k)
  have hdiv : (m : ℚ) * (2 : ℚ) ^ k / quantum p emin ((m : ℚ) * (2 : ℚ) ^ k)
      = ((m * (2 : ℤ) ^ n : ℤ) : ℚ) := by
    rw [div_eq_iff hq.ne']
    push_cast
    rw [mul_assoc, mul_comm ((2 : ℚ) ^ n), ← h2k]
  unfold roundPos
  rw [hdiv, roundHalfEven_intCast]
  push_cast
  rw [mul_assoc, mul_comm ((2 : ℚ) ^ n), ← h2k]

theorem roundTo_roundPos {p : ℕ} (hp : 1 ≤ p) (emin : ℤ) {x : ℚ} (hx : 0 < x) :
    roundTo p emin (roundPos p emin x) = roundPos p emin x := by
  have hq := quantum_pos p emin x
  have hM0 : 0 ≤ roundHalfEven (x / quantum p emin x) :=
    le_roundHalfEven_of_le (by simpa using (div_pos hx hq).le)
  have hM1 : roundHalfEven (x / quantum p emin x) ≤ (2 : ℤ) ^ p := by
    apply roundHalfEven_le_of_le
    rw [div_le_iff₀ hq, pow_mul_quantum]
    exact (lt_zpow_exponent_succ emin hx).le
  have hk : emin - ((p : ℤ) - 1) ≤ max (binade x) emin - ((p : ℤ) - 1) := by
    have := le_max_right (binade x) emin
    omega
  have hform : roundPos p emin x
      = ((roundHalfEven (x / quantum p emin x) : ℤ) : ℚ)
        * (2 : ℚ) ^ (max (binade x) emin - ((p : ℤ) - 1)) := rfl
  rcases hM0.lt_or_eq with hpos | hzero
  · have hrp : 0 < roundPos p emin x := by
      rw [hform]
      have : (0 : ℚ) < ((roundHalfEven (x / quantum p emin x) : ℤ) : ℚ) := by exact_mod_cast hpos
      positivity
    rw [roundTo_of_pos p emin hrp]
    rcases hM1.lt_or_eq with hlt | heq
    · rw [hform]
      exact roundPos_of_repr hpos hlt hk
    · have h2 : (2 : ℚ) ≠ 0 := two_ne_zero
      have hform2 : roundPos p emin x
          = (((2 : ℤ) ^ (p - 1) : ℤ) : ℚ)
            * (2 : ℚ) ^ (max (binade x) emin - ((p : ℤ) - 1) + 1) := by
        rw [hform, heq, zpow_add₀ h2, zpow_one]
        push_cast
        have : (2 : ℚ) ^ p = (2 : ℚ) ^ (p - 1) * 2 := by
          rw [← pow_succ, Nat.sub_add_cancel hp]
        rw [this]
        ring
      rw [hform2]
      refine roundPos_of_repr (by positivity) ?_ (by omega)
      exact pow_lt_pow_right₀ (by norm_num) (by omega)
  · have : roundPos p emin x = 0 := by
      rw [hform, ← hzero]
      simp
    rw [this, roundTo_zero]

theorem roundTo_idem {p : ℕ} (hp : 1 ≤ p) (emin : ℤ) (x : ℚ) :
    roundTo p emin (roundTo p emin x) = roundTo p emin x := by
  rcases lt_trichotomy x 0 with hx | hx | hx
  · rw [roundTo_of_neg p emin hx]
    have hy : 0 < -x := by linarith
    have h0 := @roundPos_nonneg p emin (-x) hy.le
    rcases h0.lt_or_eq with h | h
    · rw [roundTo_of_neg p emin (by linarith), neg_neg]
      have := roundTo_roundPos hp emin hy
      rw [roundTo_of_pos p emin h] at this
      rw [this]
    · rw [← h]
      simp [roundTo_zero]
  · rw [hx, roundTo_zero, roundTo_zero]
  · rw [roundTo_of_pos p emin hx]
    exact roundTo_roundPos hp emin hx

theorem fl64_mono {x y : ℚ} (h : x ≤ y) : fl64 x ≤ fl64 y :=
  roundTo_mono (by norm_num) _ h

theorem fl64_idem (x : ℚ) : fl64 (fl64 x) = fl64 x :=
  roundTo_idem (by norm_num) _ x

set_option maxRecDepth 100000 in
theorem fl64_values : fl64 (-(1 / 2)) = -(1 / 2) ∧ fl64 15 = 15 ∧ fl64 (15 / 2) = 15 / 2
    ∧ fl64 (-(15 / 2)) = -(15 / 2) ∧ fl32 (15 / 2) = 15 / 2 ∧ fl32 (-(15 / 2)) = -(15 / 2)
    ∧ fl64 1 = 1 ∧ fl64 0 = 0 := by decide!

/-! ## The particle buffer -/

theorem fillLoop_length (rand : ℕ → ℚ) (k fuel i : ℕ) (arr : List ℚ) :
    (fillLoop rand k fuel i arr).length = arr.length := by
  induction fuel generalizing i arr with
  | zero => rfl
  | succ fuel ih =>
    unfold fillLoop
    split_ifs
    · rw [ih, List.length_set]
    · rfl

theorem initialPositions_length (rand : ℕ → ℚ) : (initialPositions rand).length = 6000 := by
  unfold initialPositions
  rw [fillLoop_length, List.length_replicate]

theorem onDensityInput_negative (hostLimit : ℕ) (s : State) (n : ℤ) (rand : ℕ → ℚ)
    (hn : n < 0) :
    onDensityInput hostLimit s (some n) rand
      = { state := { s with particleCount := some n }
          thrown := some JSError.rangeError } := by
  have h1 : n * 3 < 0 := by omega
  simp [onDensityInput, newFloat32Array, timesThree, h1]

theorem onDensityInput_zero (hostLimit : ℕ) (s : State) (rand : ℕ → ℚ) :
    onDensityInput hostLimit s (some 0) rand
      = { state := { s with particleCount := some 0, positions := [] }
          thrown := none } := by
  have h1 : ¬ ((typedArrayLimit hostLimit : ℤ) < 0) := by omega
  simp [onDensityInput, newFloat32Array, timesThree, loopBound, fillLoop, h1]

theorem init_positions (w h : ℕ) (rand : ℕ → ℚ) :
    (init w h rand).positions = initialPositions rand := by
  simp only [init, animate]

theorem init_particleCount (w h : ℕ) (rand : ℕ → ℚ) :
    (init w h rand).particleCount = some 2000 := by
  simp only [init, animate]

theorem init_time (w h : ℕ) (rand : ℕ → ℚ) :
    (init w h rand).time = jsAdd 0 (lit (1 / 100)) := by
  simp only [init, animate]

/-! ## Claims about the particle field -/

/-- C2 (amended): nothing validates the density.  For every `n < 0` the
handler aborts with the `RangeError` of the typed-array constructor, after it
has overwritten `particleCount` with `n`; the position buffer and everything
else keep their prior values.  For `n = 0` nothing is thrown: `particleCount`
becomes 0 and the position buffer becomes empty. -/
theorem C2_nonpositive_density (hostLimit : ℕ) (s : State) (n : ℤ) (rand : ℕ → ℚ)
    (_hn : n ≤ 0) :
    (n < 0 → onDensityInput hostLimit s (some n) rand
        = { state := { s with particleCount := some n }
            thrown := some JSError.rangeError })
    ∧ (n = 0 → onDensityInput hostLimit s (some n) rand
        = { state := { s with particleCount := some 0, positions := [] }
            thrown := none }) := by
  constructor
  · intro h
    exact onDensityInput_negative hostLimit s n rand h
  · intro h
    rw [h]
    exact onDensityInput_zero hostLimit s rand

/-- Witness of C2 at density `-5`. -/
theorem C2_nonpositive_density_witness :
    (-5 : ℤ) ≤ 0
    ∧ (onDensityInput (2 ^ 32) (init 800 600 (fun _ => 0)) (some (-5)) (fun _ => 0)).thrown
        = some JSError.rangeError
    ∧ (onDensityInput (2 ^ 32) (init 800 600 (fun _ => 0)) (some (-5)) (fun _ => 0)).state.positions
        = (init 800 600 (fun _ => 0)).positions := by
  have h := (C2_nonpositive_density (2 ^ 32) (init 800 600 (fun _ => 0)) (-5) (fun _ => 0)
    (by decide)).1 (by decide)
  rw [h]
  exact ⟨by decide, rfl, by dsimp only⟩

/-- Counterexample to C2 as stated: from the load-time state, where
`particleCount` is 2000, density `-5` leaves `particleCount = -5`, and density
`0` is not rejected at all and replaces the 6000 positions by an empty buffer. -/
theorem C2_counterexample :
    (init 800 600 (fun _ => 0)).particleCount = some 2000
    ∧ (onDensityInput (2 ^ 32) (init 800 600 (fun _ => 0)) (some (-5))
        (fun _ => 0)).state.particleCount = some (-5)
    ∧ (onDensityInput (2 ^ 32) (init 800 600 (fun _ => 0)) (some (-5))
        (fun _ => 0)).state.particleCount ≠ (init 800 600 (fun _ => 0)).particleCount
    ∧ (onDensityInput (2 ^ 32) (init 800 600 (fun _ => 0)) (some 0) (fun _ => 0)).thrown = none
    ∧ (onDensityInput (2 ^ 32) (init 800 600 (fun _ => 0)) (some 0)
        (fun _ => 0)).state.positions.length ≠ (init 800 600 (fun _ => 0)).positions.length := by
  rw [onDensityInput_negative _ _ _ _ (by decide), onDensityInput_zero]
  refine ⟨rfl, rfl, ?_, rfl, ?_⟩
  · dsimp only
    rw [init_particleCount]
    decide
  · dsimp only
    rw [init_positions, initialPositions_length]
    decide

theorem foldl_max_ge_init (l : List ℕ) (a : ℕ) : a ≤ l.foldl max a := by
  induction l generalizing a with
  | nil => exact le_rfl
  | cons x l ih => exact le_trans (le_max_left a x) (ih (max a x))

theorem foldl_max_ge_mem (l : List ℕ) (a x : ℕ) (hx : x ∈ l) : x ≤ l.foldl max a := by
  induction l generalizing a with
  | nil => cases hx
  | cons y l ih =>
    rcases List.mem_cons.mp hx with h | h
    · rw [h]
      exact le_trans (le_max_right a y) (foldl_max_ge_init l (max a y))
    · exact ih (max a y) h

theorem foldl_max_le (l : List ℕ) (a m : ℕ) (ha : a ≤ m) (h : ∀ x ∈ l, x ≤ m) :
    l.foldl max a ≤ m := by
  induction l generalizing a with
  | nil => exact ha
  | cons y l ih =>
    exact ih (max a y) (max_le ha (h y (List.mem_cons_self y l)))
      (fun x hx => h x (List.mem_cons_of_mem y hx))

theorem mathMax_eq (d : FrequencyData) (m : ℕ) (hex : ∃ i, (d i).val = m)
    (hle : ∀ i, (d i).val ≤ m) : mathMax d = m := by
  unfold mathMax
  apply le_antisymm
  · apply foldl_max_le _ _ _ (Nat.zero_le m)
    intro x hx
    obtain ⟨i, hi⟩ := (List.mem_ofFn _ _).mp hx
    rw [← hi]
    exact hle i
  · obtain ⟨i, hi⟩ := hex
    apply foldl_max_ge_mem
    rw [← hi]
    exact (List.mem_ofFn _ _).mpr ⟨i, rfl⟩

theorem jsDiv_byte_bounds (m : ℕ) (hm : m ≤ 255) :
    0 ≤ jsDiv (m : ℚ) 255 ∧ jsDiv (m : ℚ) 255 ≤ 1 := by
  obtain ⟨_, _, _, _, _, _, v1, v0⟩ := fl64_values
  have hmq : (m : ℚ) ≤ 255 := by exact_mod_cast hm
  have hm0 : (0 : ℚ) ≤ (m : ℚ) := by positivity
  have h1 := fl64_mono (x := 0) (y := (m : ℚ) / 255) (by positivity)
  have h2 := fl64_mono (x := (m : ℚ) / 255) (y := 1) (by rw [div_le_one (by norm_num)]; exact hmq)
  rw [v0] at h1
  rw [v1] at h2
  exact ⟨h1, h2⟩

set_option maxRecDepth 100000 in
theorem jsDiv_200_255 : jsDiv 200 255 = 7064470003718425 / 9007199254740992 := by decide!

theorem animate_audioStrength (s : State) (t : Tap) (freq : ℕ → FrequencyData)
    (ht : s.tap = some t) :
    (animate s freq).audioStrength = jsDiv (mathMax (freq t.analyser) : ℚ) 255
    ∧ (animate s freq).tap = some { analyser := t.analyser, audioData := freq t.analyser } := by
  simp only [animate, ht, Option.map_some']
  exact ⟨trivial, trivial⟩

/-- C3: while an analyser is attached, a tick stores that tick's frequency
snapshot in `audioData` and sets the `audioStrength` uniform to the JavaScript
quotient `max(bins) / 255` of that snapshot; the bins are bytes (the elements
of a `Uint8Array`), so the value lies in `[0, 1]`; a snapshot whose maximum is
200 gives `200 / 255`, the binary64 number `0.7843137254901961`. -/
theorem C3_audioStrength_is_max_over_255 (s : State) (t : Tap) (freq : ℕ → FrequencyData)
    (m : ℕ) (ht : s.tap = some t) (hex : ∃ i, (freq t.analyser i).val = m)
    (hle : ∀ i, (freq t.analyser i).val ≤ m) :
    (animate s freq).audioStrength = jsDiv (m : ℚ) 255
    ∧ 0 ≤ (animate s freq).audioStrength
    ∧ (animate s freq).audioStrength ≤ 1
    ∧ (animate s freq).tap = some { analyser := t.analyser, audioData := freq t.analyser }
    ∧ (m = 200 →
        (animate s freq).audioStrength = jsDiv 200 255
        ∧ (animate s freq).audioStrength = 7064470003718425 / 9007199254740992) := by
  obtain ⟨h1, h2⟩ := animate_audioStrength s t freq ht
  rw [mathMax_eq _ m hex hle] at h1
  have hm : m ≤ 255 := by
    obtain ⟨i, hi⟩ := hex
    rw [← hi]
    have := (freq t.analyser i).isLt
    omega
  have hb := jsDiv_byte_bounds m hm
  refine ⟨h1, ?_, ?_, h2, ?_⟩
  · rw [h1]
    exact hb.1
  · rw [h1]
    exact hb.2
  · intro h200
    rw [h1, h200]
    exact ⟨by norm_num, by rw [← jsDiv_200_255]; norm_num⟩

/-- Witness of C3: the chain attached right after load, and a snapshot whose
bins are 10 except bin 3, which is 200. -/
theorem C3_audioStrength_is_max_over_255_witness :
    (onDecoded (init 800 600 (fun _ => 0)) 7).tap
        = some { analyser := 0, audioData := fun _ => 0 }
    ∧ (∃ i : Fin frequencyBinCount, (if i.val = 3 then (200 : Fin 256) else 10).val = 200)
    ∧ (∀ i : Fin frequencyBinCount, (if i.val = 3 then (200 : Fin 256) else 10).val ≤ 200)
    ∧ (animate (onDecoded (init 800 600 (fun _ => 0)) 7)
        (fun _ i => if i.val = 3 then 200 else 10)).audioStrength = jsDiv ((200 : ℕ) : ℚ) 255
    ∧ (animate (onDecoded (init 800 600 (fun _ => 0)) 7)
        (fun _ i => if i.val = 3 then 200 else 10)).audioStrength
        = 7064470003718425 / 9007199254740992 := by
  have ht : (onDecoded (init 800 600 (fun _ => 0)) 7).tap
      = some { analyser := 0, audioData := fun _ => 0 } := by
    simp only [onDecoded, init, animate, List.length_nil]
  have hex : ∃ i : Fin frequencyBinCount,
      (if i.val = 3 then (200 : Fin 256) else 10).val = 200 := ⟨⟨3, by decide⟩, by decide⟩
  have hle : ∀ i : Fin frequencyBinCount,
      (if i.val = 3 then (200 : Fin 256) else 10).val ≤ 200 := by
    intro i
    split_ifs <;> decide
  have h := C3_audioStrength_is_max_over_255 (onDecoded (init 800 600 (fun _ => 0)) 7)
    { analyser := 0, audioData := fun _ => 0 } (fun _ i => if i.val = 3 then 200 else 10) 200 ht
    hex hle
  exact ⟨ht, hex, hle, h.1, (h.2.2.2.2 rfl).2⟩

/-! ## Event traces -/

theorem onDensityInput_state (hostLimit : ℕ) (s : State) (v : Option ℤ) (rand : ℕ → ℚ) :
    ∃ ps, (onDensityInput hostLimit s v rand).state
      = { s with particleCount := v, positions := ps } := by
  unfold onDensityInput
  cases newFloat32Array hostLimit (timesThree v) with
  | error e => exact ⟨s.positions, rfl⟩
  | ok newPositions => exact ⟨_, rfl⟩

theorem run_cons (hostLimit : ℕ) (s : State) (e : Event) (es : List Event) :
    run hostLimit s (e :: es) = run hostLimit (step hostLimit s e) es := rfl

theorem step_frameRequested (hostLimit : ℕ) (s : State) (e : Event)
    (h : s.frameRequested = true) : (step hostLimit s e).frameRequested = true := by
  cases e with
  | audioChange b => exact h
  | audioDecoded b => exact h
  | audioFailed => exact h
  | colorInput c => exact h
  | densityInput v rand =>
    obtain ⟨ps, hps⟩ := onDensityInput_state hostLimit s v rand
    simp only [step, hps]
    exact h
  | resize w1 h1 => exact h
  | frame f => simp only [step, h, if_true, animate]

theorem init_frameRequested (w h : ℕ) (rand : ℕ → ℚ) :
    (init w h rand).frameRequested = true := by
  simp only [init, animate]

theorem run_frameRequested (hostLimit : ℕ) (s : State) (es : List Event)
    (h : s.frameRequested = true) : (run hostLimit s es).frameRequested = true := by
  induction es generalizing s with
  | nil => exact h
  | cons e es ih =>
    rw [run_cons]
    exact ih _ (step_frameRequested hostLimit s e h)

theorem step_quiet (hostLimit : ℕ) (s : State) (e : Event) (he : e.isDecoded = false)
    (h : s.tap = none ∧ s.audioStrength = 0) :
    (step hostLimit s e).tap = none ∧ (step hostLimit s e).audioStrength = 0 := by
  cases e with
  | audioChange b => exact h
  | audioDecoded b => simp [Event.isDecoded] at he
  | audioFailed => exact h
  | colorInput c => exact h
  | densityInput v rand =>
    obtain ⟨ps, hps⟩ := onDensityInput_state hostLimit s v rand
    simp only [step, hps]
    exact h
  | resize w1 h1 => exact h
  | frame f =>
    simp only [step]
    split_ifs
    · simp only [animate, h.1, Option.map_none']
      exact ⟨trivial, h.2⟩
    · exact h

theorem run_quiet (hostLimit : ℕ) (s : State) (es : List Event)
    (hes : ∀ e ∈ es, e.isDecoded = false) (h : s.tap = none ∧ s.audioStrength = 0) :
    (run hostLimit s es).tap = none ∧ (run hostLimit s es).audioStrength = 0 := by
  induction es generalizing s with
  | nil => exact h
  | cons e es ih =>
    rw [run_cons]
    exact ih _ (fun e1 h1 => hes e1 (List.mem_cons_of_mem e h1))
      (step_quiet hostLimit s e (hes e (List.mem_cons_self e es)) h)

theorem init_quiet (w h : ℕ) (rand : ℕ → ℚ) :
    (init w h rand).tap = none ∧ (init w h rand).audioStrength = 0 := by
  simp only [init, animate, Option.map_none']
  exact ⟨trivial, trivial⟩

/-- C5: before any successful attach the drive signal is exactly 0.  Along
every sequence of events without a successful decode (ticks, colour, density
and resize events, file selections and failed decodes, in any order and
number), after every initial part of the sequence the `audioStrength` uniform
is 0 and no analyser is attached. -/
theorem C5_drive_zero_before_attach (hostLimit w h : ℕ) (rand : ℕ → ℚ) (es : List Event)
    (k : ℕ) (hes : ∀ e ∈ es, e.isDecoded = false) :
    (run hostLimit (init w h rand) (es.take k)).audioStrength = 0
    ∧ (run hostLimit (init w h rand) (es.take k)).tap = none := by
  have h := run_quiet hostLimit (init w h rand) (es.take k)
    (fun e he => hes e (List.mem_of_mem_take he)) (init_quiet w h rand)
  exact ⟨h.2, h.1⟩

/-- Witness of C5: ticks interleaved with a colour, a density and a resize
event and a failed decode. -/
theorem C5_drive_zero_before_attach_witness :
    (∀ e ∈ [Event.frame (fun _ _ => 9), Event.colorInput ⟨255, 0, 0⟩,
        Event.densityInput (some 500) (fun _ => 1 / 4), Event.resize 1920 1080,
        Event.audioFailed, Event.frame (fun _ _ => 200)], e.isDecoded = false)
    ∧ (run (2 ^ 32) (init 800 600 (fun _ => 0))
        ([Event.frame (fun _ _ => 9), Event.colorInput ⟨255, 0, 0⟩,
          Event.densityInput (some 500) (fun _ => 1 / 4), Event.resize 1920 1080,
          Event.audioFailed, Event.frame (fun _ _ => 200)].take 6)).audioStrength = 0 :=
  ⟨by simp [Event.isDecoded],
    (C5_drive_zero_before_attach (2 ^ 32) 800 600 (fun _ => 0) _ 6
      (by simp [Event.isDecoded])).1⟩

/-! ## Attaching audio -/

theorem step_time (hostLimit : ℕ) (s : State) (e : Event) :
    (step hostLimit s e).time
      = if e.isFrame && s.frameRequested then jsAdd s.time (lit (1 / 100)) else s.time := by
  cases e with
  | audioChange b => rfl
  | audioDecoded b => rfl
  | audioFailed => rfl
  | colorInput c => rfl
  | densityInput v rand =>
    obtain ⟨ps, hps⟩ := onDensityInput_state hostLimit s v rand
    simp only [step, hps, Event.isFrame, Bool.false_and]
    rfl
  | resize w1 h1 => rfl
  | frame f =>
    simp only [step, Event.isFrame, Bool.true_and]
    split_ifs
    · simp only [animate]
    · rfl

theorem run_time (hostLimit : ℕ) (s : State) (es : List Event) (h : s.frameRequested = true) :
    (run hostLimit s es).time
      = (fun t => jsAdd t (lit (1 / 100)))^[es.countP Event.isFrame] s.time := by
  induction es generalizing s with
  | nil => rfl
  | cons e es ih =>
    rw [run_cons, ih _ (step_frameRequested hostLimit s e h), step_time, h, Bool.and_true]
    cases he : e.isFrame
    · rw [List.countP_cons_of_neg _ _ (by simp [he])]
      simp
    · rw [List.countP_cons_of_pos _ _ he, Function.iterate_succ_apply]
      simp

theorem step_time_repr (hostLimit : ℕ) (s : State) (e : Event) (h : fl64 s.time = s.time) :
    fl64 (step hostLimit s e).time = (step hostLimit s e).time := by
  rw [step_time]
  split_ifs
  · exact fl64_idem _
  · exact h

theorem run_time_repr (hostLimit : ℕ) (s : State) (es : List Event) (h : fl64 s.time = s.time) :
    fl64 (run hostLimit s es).time = (run hostLimit s es).time := by
  induction es generalizing s with
  | nil => exact h
  | cons e es ih =>
    rw [run_cons]
    exact ih _ (step_time_repr hostLimit s e h)

theorem init_time_repr (w h : ℕ) (rand : ℕ → ℚ) :
    fl64 (init w h rand).time = (init w h rand).time := by
  rw [init_time]
  exact fl64_idem _

theorem lit_nonneg {x : ℚ} (hx : 0 ≤ x) : 0 ≤ lit x := by
  have h := fl64_mono hx
  rwa [fl64_values.2.2.2.2.2.2.2] at h

theorem step_time_mono (hostLimit : ℕ) (s : State) (e : Event) (h : fl64 s.time = s.time) :
    s.time ≤ (step hostLimit s e).time := by
  rw [step_time]
  split_ifs
  · have hc : (0 : ℚ) ≤ lit (1 / 100) := lit_nonneg (by norm_num)
    have := fl64_mono (x := s.time) (y := s.time + lit (1 / 100)) (by linarith)
    rw [h] at this
    exact this
  · exact le_rfl

set_option maxRecDepth 100000 in
theorem seven_additions :
    (fun t => jsAdd t (lit (1 / 100)))^[6] (jsAdd 0 (lit (1 / 100)))
      = 5044031582654956 / 72057594037927936
    ∧ jsAdd (jsAdd 0 (lit (1 / 100))) (jsMul 6 (lit (1 / 100)))
      = 5044031582654955 / 72057594037927936
    ∧ jsAdd 0 (lit (1 / 100)) = 5764607523034235 / 576460752303423488 := by decide!

/-- C6 (amended): a tick adds the binary64 number `0.01` to the phase with one
rounding, so after `N` ticks the phase is the `N`-fold rounded sum, which is
not `initial + N * 0.01` in general.  From every reachable state the phase
after any sequence of events is that iterate with `N` the number of ticks in
the sequence, `N` consecutive ticks give the `N`-fold iterate, no event makes
the phase smaller, and only a tick changes it. -/
theorem C6_phase_after_ticks (hostLimit w h : ℕ) (rand : ℕ → ℚ) (es : List Event)
    (fs : List (ℕ → FrequencyData)) (e : Event) (s : State) :
    (run hostLimit (init w h rand) es).time
      = (fun t => jsAdd t (lit (1 / 100)))^[es.countP Event.isFrame] (init w h rand).time
    ∧ (run hostLimit (run hostLimit (init w h rand) es) (fs.map Event.frame)).time
      = (fun t => jsAdd t (lit (1 / 100)))^[fs.length] (run hostLimit (init w h rand) es).time
    ∧ (run hostLimit (init w h rand) es).time
      ≤ (step hostLimit (run hostLimit (init w h rand) es) e).time
    ∧ (step hostLimit s e).time
      = if e.isFrame && s.frameRequested then jsAdd s.time (lit (1 / 100)) else s.time := by
  have hfr := init_frameRequested w h rand
  refine ⟨run_time hostLimit _ es hfr, ?_, ?_, step_time hostLimit s e⟩
  · rw [run_time hostLimit _ _ (run_frameRequested hostLimit _ es hfr)]
    have hc : (fs.map Event.frame).countP Event.isFrame = fs.length := by
      induction fs with
      | nil => rfl
      | cons f fs ih => rw [List.map_cons, List.countP_cons_of_pos _ _ rfl, ih, List.length_cons]
    rw [hc]
  · exact step_time_mono hostLimit _ e (run_time_repr hostLimit _ es (init_time_repr w h rand))

/-- Counterexample to C6 as stated: six ticks after load the phase is the
binary64 number `0.07`, which is neither the loaded phase plus `6 / 100`, nor
the loaded phase plus six times the binary64 number `0.01`, nor the JavaScript
value of `phase + 6 * 0.01` (that is `0.06999999999999999`). -/
theorem C6_counterexample :
    (run 0 (init 800 600 (fun _ => 0)) (List.replicate 6 (Event.frame (fun _ _ => 0)))).time
      = 5044031582654956 / 72057594037927936
    ∧ (run 0 (init 800 600 (fun _ => 0)) (List.replicate 6 (Event.frame (fun _ _ => 0)))).time
      ≠ (init 800 600 (fun _ => 0)).time + 6 * (1 / 100)
    ∧ (run 0 (init 800 600 (fun _ => 0)) (List.replicate 6 (Event.frame (fun _ _ => 0)))).time
      ≠ (init 800 600 (fun _ => 0)).time + 6 * lit (1 / 100)
    ∧ (run 0 (init 800 600 (fun _ => 0)) (List.replicate 6 (Event.frame (fun _ _ => 0)))).time
      ≠ jsAdd (init 800 600 (fun _ => 0)).time (jsMul 6 (lit (1 / 100))) := by
  obtain ⟨h7, hjs, h1⟩ := seven_additions
  have hlit : lit (1 / 100) = 5764607523034235 / 576460752303423488 := by
    have h0 : jsAdd 0 (lit (1 / 100)) = fl64 (lit (1 / 100)) := by
      unfold jsAdd
      rw [zero_add]
    rw [h0] at h1
    unfold lit at h1 ⊢
    rwa [fl64_idem] at h1
  have hrun : (run 0 (init 800 600 (fun _ => 0))
      (List.replicate 6 (Event.frame (fun _ _ => 0)))).time
      = 5044031582654956 / 72057594037927936 := by
    rw [run_time 0 _ _ (init_frameRequested 800 600 _), init_time, ← h7]
    rfl
  rw [hrun, init_time, hjs, h1, hlit]
  refine ⟨rfl, ?_, ?_, ?_⟩ <;> norm_num

/-! ## Failed decodes, resizing, tint -/

/-- C8: a failed audio decode runs no callback of the script, so it leaves the
whole state unchanged, `analyser` and `audioData` included.  When the first
attach fails the analyser stays unattached and the next tick leaves the drive
signal at 0; in every reachable state a frame is requested, and the tick that
follows renders once more and requests the next frame. -/
theorem C8_failed_decode_changes_nothing (hostLimit w h : ℕ) (rand : ℕ → ℚ) (s : State)
    (es : List Event) (f : ℕ → FrequencyData) :
    step hostLimit s Event.audioFailed = s
    ∧ (step hostLimit s Event.audioFailed).tap = s.tap
    ∧ (run hostLimit (init w h rand) [Event.audioChange true, Event.audioFailed]).tap = none
    ∧ (run hostLimit (init w h rand)
        [Event.audioChange true, Event.audioFailed, Event.frame f]).audioStrength = 0
    ∧ (run hostLimit (init w h rand) es).frameRequested = true
    ∧ (step hostLimit (run hostLimit (init w h rand) es) (Event.frame f)).rendered
        = (run hostLimit (init w h rand) es).rendered + 1
    ∧ (step hostLimit (run hostLimit (init w h rand) es) (Event.frame f)).frameRequested
        = true := by
  have hq1 := run_quiet hostLimit (init w h rand) [Event.audioChange true, Event.audioFailed]
    (by simp [Event.isDecoded]) (init_quiet w h rand)
  have hq2 := run_quiet hostLimit (init w h rand)
    [Event.audioChange true, Event.audioFailed, Event.frame f]
    (by simp [Event.isDecoded]) (init_quiet w h rand)
  have hfr := run_frameRequested hostLimit (init w h rand) es (init_frameRequested w h rand)
  refine ⟨rfl, rfl, hq1.1, hq2.2, hfr, ?_, step_frameRequested hostLimit _ _ hfr⟩
  simp only [step, hfr, if_true, animate]

theorem jsDivNat_pos (w h : ℕ) (hh : 0 < h) :
    jsDivNat w h = JSNum.num (jsDiv (w : ℚ) (h : ℚ)) := by
  unfold jsDivNat
  rw [if_neg (by omega)]

/-- C9: for every resize notification `(w, h)` with `h > 0` and every prior
state, after the resize handler the camera aspect is the JavaScript quotient
`w / h` and the renderer size is `(w, h)`; both are the same whatever the prior
state was, nothing else changes, and handling the same notification a second
time changes nothing. -/
theorem C9_resize_sets_aspect_and_size (s s1 : State) (w h : ℕ) (hh : 0 < h) :
    (onResize s w h).aspect = JSNum.num (jsDiv (w : ℚ) (h : ℚ))
    ∧ (onResize s w h).size = (w, h)
    ∧ (onResize s1 w h).aspect = (onResize s w h).aspect
    ∧ (onResize s1 w h).size = (onResize s w h).size
    ∧ onResize (onResize s w h) w h = onResize s w h
    ∧ onResize s w h = { s with size := (w, h), aspect := JSNum.num (jsDiv (w : ℚ) (h : ℚ)) } := by
  have ha := jsDivNat_pos w h hh
  refine ⟨ha, rfl, rfl, rfl, rfl, ?_⟩
  unfold onResize
  rw [ha]

/-- Witness of C9: the notification `(1920, 1080)` after load in an 800 by 600
window. -/
theorem C9_resize_sets_aspect_and_size_witness :
    0 < 1080
    ∧ (onResize (init 800 600 (fun _ => 0)) 1920 1080).aspect
        = JSNum.num (jsDiv ((1920 : ℕ) : ℚ) ((1080 : ℕ) : ℚ))
    ∧ (onResize (init 800 600 (fun _ => 0)) 1920 1080).size = (1920, 1080) :=
  ⟨by decide,
    (C9_resize_sets_aspect_and_size (init 800 600 (fun _ => 0)) (init 800 600 (fun _ => 0))
      1920 1080 (by decide)).1,
    (C9_resize_sets_aspect_and_size (init 800 600 (fun _ => 0)) (init 800 600 (fun _ => 0))
      1920 1080 (by decide)).2.1⟩

/-- C10: for every colour `c` and every prior state, after the colour handler
the hologram's `color` uniform and the particle material's colour both equal
`c`, nothing else changes, and running the handler a second time with the same
`c` gives the same state as running it once. -/
theorem C10_tint_idempotent (s : State) (c : Color) :
    (onColorInput s c).color = c
    ∧ (onColorInput s c).particleColor = c
    ∧ onColorInput (onColorInput s c) c = onColorInput s c
    ∧ (onColorInput (onColorInput s c) c).color = (onColorInput s c).color
    ∧ (onColorInput (onColorInput s c) c).particleColor = (onColorInput s c).particleColor
    ∧ onColorInput s c = { s with color := c, particleColor := c } :=
  ⟨rfl, rfl, rfl, rfl, rfl, rfl⟩

end Hologram
